import Mathlib

/-!
# excel_to_gor: extraction of HTTP requests from spreadsheet rows

A shallow embedding of `src/go/excel_to_gor.go`.

* A Go `string` is modelled as a list of Unicode code points (`Text`); cell
  texts are valid UTF-8 as delivered by the spreadsheet reader.
* The rows handed to the conversion are the result of a successful
  `f.GetRows(...)`; opening and parsing the spreadsheet is library code.
* The external capabilities (`uuid.New().String()`, `time.Now().UnixNano()`,
  `os.Create`, the `Write` calls behind `fmt.Fprintf`) are parameters (`Env`).
* The output file is the sequence of payloads of its successful `Write`
  calls, each tagged with the `Fprint` statement that produced it; the bytes
  on disk are their concatenation (`fileBytes`). A failed `Write` adds
  nothing to the sequence: what a failed call may have written in part is
  not modelled.
* Go run-time panics (index or slice out of range) are explicit results.
* `count` and the loop index are Go `int`s that never leave the natural
  numbers; the comparison `i < len(rows)-2` is done over the integers.
-/

namespace ExcelToGor

/-- A Go string, as its sequence of code points. -/
abbrev Text := List Char

/-- A spreadsheet row: its cells in order. -/
abbrev Row := List Text

/-! ## Library functions used by the source -/

/-- White space as defined by Unicode (`unicode.IsSpace`): the Latin-1 spaces
`\t \n \v \f \r`, space, U+0085, U+00A0, and beyond Latin-1 the characters with the
White_Space property (U+1680, U+2000 to U+200A, U+2028, U+2029, U+202F, U+205F, U+3000). -/
def isSpace (ch : Char) : Bool :=
  let n := ch.toNat
  (9 ≤ n && n ≤ 13) || n == 32 || n == 0x85 || n == 0xA0 || n == 0x1680 ||
  (0x2000 ≤ n && n ≤ 0x200A) || n == 0x2028 || n == 0x2029 || n == 0x202F ||
  n == 0x205F || n == 0x3000

/-- The function `strings.TrimSpace`: all leading and trailing white space removed. -/
def TrimSpace (s : Text) : Text :=
  ((s.dropWhile isSpace).reverse.dropWhile isSpace).reverse

/-- The verb `%d` of `fmt` on an `int64`: decimal digits, with a leading minus sign
for a negative value. -/
def formatInt (t : Int) : Text :=
  if t < 0 then '-' :: Nat.toDigits 10 t.natAbs else Nat.toDigits 10 t.toNat

/-- The slice expression `s[:n]` on a string: a run-time panic (`none`) when `n`
exceeds the length. Identifier texts are ASCII, so byte and character offsets agree. -/
def slicePrefix (s : Text) (n : Nat) : Option Text :=
  if s.length < n then none else some (s.take n)

/-! ## The program -/

/-- The function `generateRequestID`, as a function of the text returned by `uuid.New().String()`:
the expression `uuid.New().String()[:24]`. -/
def generateRequestID (uuidText : Text) : Option Text :=
  slicePrefix uuidText 24

/-- The external capabilities used by one run. -/
structure Env where
  /-- Text returned by the k-th call of `uuid.New().String()`. -/
  uuid : Nat → Text
  /-- Value returned by the k-th call of `time.Now().UnixNano()`. -/
  now : Nat → Int
  /-- Whether `os.Create(outputPath)` succeeds. -/
  createOk : Bool
  /-- Whether the k-th `Write` call on the output file succeeds. -/
  writeOk : Nat → Bool

/-- One successful write to the output file, by the statement that issued it. -/
inductive Chunk where
  /-- The metadata line: `fmt.Fprintf(outputFile, "1 %s %d 0\n", requestID, timestamp)` -/
  | meta (requestID : Text) (timestamp : Int)
  /-- The request: `fmt.Fprintf(outputFile, "%s\n", httpRequest)` -/
  | body (httpRequest : Text)
  /-- The separator block: `fmt.Fprint(outputFile, "\n\n🐵🙈🙉\n")` -/
  | sep
  deriving DecidableEq, Repr

/-- The separator literal of the source. -/
def separator : Text := "\n\n🐵🙈🙉\n".toList

/-- The bytes a write puts on disk. -/
def Chunk.bytes : Chunk → Text
  | .meta requestID timestamp =>
      "1 ".toList ++ requestID ++ " ".toList ++ formatInt timestamp ++ " 0\n".toList
  | .body httpRequest => httpRequest ++ "\n".toList
  | .sep => separator

/-- Content of a file given its writes. -/
def fileBytes (out : List Chunk) : Text := out.flatMap Chunk.bytes

/-- Error kinds returned by `extractRequestsFromExcel`. -/
inductive Error where
  /-- The error `column '%s' not found in the Excel file` -/
  | columnNotFound
  /-- The error `failed to create output file` -/
  | createFailed
  /-- The errors `failed to write to output file`, `failed to write separator`,
  `failed to write final separator` -/
  | writeFailed
  deriving DecidableEq, Repr

/-- Run-time panics of the Go program. -/
inductive Panic where
  /-- Index `rows[0]` out of range -/
  | rowsIndex
  /-- Index `row[httpReqCol]` out of range -/
  | cellIndex
  /-- Slice `uuid.New().String()[:24]` out of range -/
  | idSlice
  deriving DecidableEq, Repr

/-- What a call of `extractRequestsFromExcel` does: it panics, or it returns
`(count, err)` leaving the output file absent (`none`) or with the given writes. -/
inductive Result where
  | panic (cause : Panic)
  | done (count : Nat) (err : Option Error) (file : Option (List Chunk))
  deriving DecidableEq, Repr

/-- The function `getTimestamp` at its k-th call: `time.Now().UnixNano()`. -/
def getTimestamp (E : Env) (k : Nat) : Int := E.now k

/-- The header scan: `httpReqCol` after the loop over `headers` that starts at
index `i`; `-1` when no header equals `httpReqColumn`. -/
def scanHeaders (httpReqColumn : Text) : List Text → Nat → Int
  | [], _ => -1
  | header :: rest, i =>
      if header = httpReqColumn then (i : Int) else scanHeaders httpReqColumn rest (i + 1)

/-- Loop state: `count`, the number of identifier/timestamp pairs drawn so far, and
the writes done so far on the output file. -/
structure St where
  count : Nat
  gen : Nat
  out : List Chunk
  deriving DecidableEq, Repr

/-- The loop `for i, row := range rows[1:]` followed by the final separator and the
return. `nrows` is `len(rows)`; the list is the rows still to visit, the first of
them having loop index `i`. The write issued when `out` holds `k` writes is the
k-th `Write` call of the run. -/
def processRows (E : Env) (nrows : Nat) (httpReqCol : Nat) : List Row → Nat → St → Result
  | [], _, st =>
      if E.writeOk st.out.length then
        .done st.count none (some (st.out ++ [Chunk.sep]))
      else
        .done st.count (some .writeFailed) (some st.out)
  | row :: rest, i, st =>
      if row.length ≤ httpReqCol then
        processRows E nrows httpReqCol rest (i + 1) st
      else
        match row.get? httpReqCol with
        | none => .panic .cellIndex
        | some cell =>
          if TrimSpace cell = [] then
            processRows E nrows httpReqCol rest (i + 1) st
          else
            match row.get? httpReqCol with
            | none => .panic .cellIndex
            | some cell2 =>
              let httpRequest := TrimSpace cell2
              match generateRequestID (E.uuid st.gen) with
              | none => .panic .idSlice
              | some requestID =>
                let timestamp := getTimestamp E st.gen
                if E.writeOk st.out.length then
                  let out1 := st.out ++ [Chunk.meta requestID timestamp]
                  if E.writeOk out1.length then
                    let out2 := out1 ++ [Chunk.body httpRequest]
                    if (i : Int) < (nrows : Int) - 2 then
                      if E.writeOk out2.length then
                        processRows E nrows httpReqCol rest (i + 1)
                          ⟨st.count + 1, st.gen + 1, out2 ++ [Chunk.sep]⟩
                      else
                        .done st.count (some .writeFailed) (some out2)
                    else
                      processRows E nrows httpReqCol rest (i + 1)
                        ⟨st.count + 1, st.gen + 1, out2⟩
                  else
                    .done st.count (some .writeFailed) (some out1)
                else
                  .done st.count (some .writeFailed) (some st.out)

/-- The function `extractRequestsFromExcel` from the point where the rows of the first sheet
have been read. -/
def extractRequestsFromExcel (E : Env) (rows : List Row) (httpReqColumn : Text) : Result :=
  match rows with
  | [] => .panic .rowsIndex
  | headers :: _ =>
      let httpReqCol := scanHeaders httpReqColumn headers 0
      if httpReqCol = -1 then
        .done 0 (some .columnNotFound) none
      else if E.createOk then
        processRows E rows.length httpReqCol.toNat (rows.drop 1) 0 ⟨0, 0, []⟩
      else
        .done 0 (some .createFailed) none

/-! ## Specification-side notions -/

/-- Decimal digit characters. -/
def isDigit (ch : Char) : Bool := '0' ≤ ch && ch ≤ '9'

/-- An integer in decimal: an optional minus sign and at least one digit. -/
def isIntegerText (t : Text) : Prop :=
  ∃ ds : Text, ds ≠ [] ∧ (∀ ch ∈ ds, isDigit ch = true) ∧ (t = ds ∨ t = '-' :: ds)

/-- Hexadecimal digit or dash. -/
def isHexOrDash (ch : Char) : Bool :=
  isDigit ch || ('a' ≤ ch && ch ≤ 'f') || ('A' ≤ ch && ch ≤ 'F') || ch == '-'

/-- Characters of a UUID text from offset `i` on: a dash at offsets 8, 13, 18 and 23,
a hexadecimal digit elsewhere. -/
def uuidShape : Nat → Text → Bool
  | _, [] => true
  | i, ch :: rest =>
      (if i = 8 ∨ i = 13 ∨ i = 18 ∨ i = 23 then ch == '-'
       else isDigit ch || ('a' ≤ ch && ch ≤ 'f') || ('A' ≤ ch && ch ≤ 'F')) &&
      uuidShape (i + 1) rest

/-- Canonical UUID text: 36 characters, hexadecimal groups of 8-4-4-4-12 separated
by dashes. -/
def isCanonicalUUID (u : Text) : Bool := u.length == 36 && uuidShape 0 u

/-- The request text a data row contributes: the trimmed text of its cell at the
target index when that cell exists and its trimmed text is not empty. -/
def requestOf (c : Nat) (row : Row) : Option Text :=
  match row.get? c with
  | none => none
  | some cell => if TrimSpace cell = [] then none else some (TrimSpace cell)

/-- The writes of the record loop as the specification describes them: for each data
row that contributes a request, a metadata line and the body, then a separator unless
the row is the last data row. `gen` numbers the identifier/timestamp pairs. -/
def recordWrites (E : Env) (c : Nat) : List Row → Nat → List Chunk
  | [], _ => []
  | row :: rest, gen =>
      match requestOf c row with
      | none => recordWrites E c rest gen
      | some request =>
          [Chunk.meta ((E.uuid gen).take 24) (E.now gen), Chunk.body request] ++
            (if rest.isEmpty then [] else [Chunk.sep]) ++ recordWrites E c rest (gen + 1)

/-- Number of request bodies among the writes. -/
def bodyCount (out : List Chunk) : Nat :=
  (out.filter (fun ch => match ch with | .body _ => true | _ => false)).length

/-- Number of separator blocks among the writes. -/
def sepCount (out : List Chunk) : Nat := out.count Chunk.sep

/-- The skip test of the loop, `len(row) <= httpReqCol || strings.TrimSpace(row[httpReqCol]) == ""`,
the cell being read only when it exists. -/
def skipped (c : Nat) (row : Row) : Bool :=
  decide (row.length ≤ c) || decide (TrimSpace (row.getD c []) = [])

/-- Whether the last data row contributes a request. -/
def lastRowEmitted (c : Nat) (data : List Row) : Bool :=
  match data.getLast? with
  | none => false
  | some row => (requestOf c row).isSome

/-- The records in order, without separators: the k-th request is preceded by the
metadata line carrying the k-th identifier and the k-th timestamp. -/
def recordChunks (E : Env) : List Text → Nat → List Chunk
  | [], _ => []
  | request :: rest, k =>
      Chunk.meta ((E.uuid k).take 24) (E.now k) :: Chunk.body request ::
        recordChunks E rest (k + 1)

/-- The bytes of the records in order, in the words of the specification: for the k-th
request the line `1 <id_k> <timestamp_k> 0`, then the request text and a newline. -/
def recordBytes (E : Env) : List Text → Nat → Text
  | [], _ => []
  | request :: rest, k =>
      "1 ".toList ++ (E.uuid k).take 24 ++ " ".toList ++ formatInt (E.now k) ++
        " 0\n".toList ++ request ++ "\n".toList ++ recordBytes E rest (k + 1)

/-- Every write but the separator blocks. -/
def notSep (ch : Chunk) : Bool :=
  match ch with
  | .sep => false
  | _ => true

/-! ## Sample inputs -/

/-- A run in which every capability succeeds. -/
def sampleEnv : Env :=
  ⟨fun _ => "123e4567-e89b-12d3-a456-426614174000".toList,
   fun k => 1700000000000000000 + (k : Int), true, fun _ => true⟩

/-- The configured column name. -/
def sampleColumn : Text := "http请求".toList

/-- A header row holding the configured column at index 1. -/
def sampleHeaders : Row := ["A".toList, "http请求".toList, "B".toList]

/-- Two data rows: a request and an empty cell. -/
def sampleData : List Row :=
  [["a".toList, "GET /x".toList, "b".toList], ["a".toList, "".toList, "b".toList]]

/-- Two data rows that both hold a request. -/
def sampleTwoRequests : List Row :=
  [["a".toList, "GET /x".toList], ["b".toList, "GET /y".toList]]

/-- A run whose third write (the separator after the first record) fails. -/
def sampleFailEnv : Env :=
  ⟨fun _ => "123e4567-e89b-12d3-a456-426614174000".toList,
   fun k => 1700000000000000000 + (k : Int), true, fun k => k != 2⟩

/-- A run in which every capability succeeds and the first identifier differs from the
later ones; the k-th timestamp ends in k. -/
def sampleTwoIds : Env :=
  ⟨fun k => match k with
     | 0 => "123e4567-e89b-12d3-a456-426614174000".toList
     | _ => "9f8e7d6c-5b4a-4c3d-8e2f-1a0b9c8d7e6f".toList,
   fun k => 1700000000000000000 + (k : Int), true, fun _ => true⟩

/-- Three data rows: a request padded with white space, a blank cell, a second request
with a trailing tab. -/
def sampleThreeRows : List Row :=
  [["a".toList, " GET /x \n".toList], ["b".toList, "  ".toList],
   ["c".toList, "POST /y\t".toList]]

/-! ## Library facts -/

theorem head?_dropWhile_false {α : Type} (p : α → Bool) (l : List α) (a : α)
    (h : (l.dropWhile p).head? = some a) : p a = false := by
  induction l with
  | nil => simp at h
  | cons x xs ih =>
    by_cases hx : p x = true
    · rw [List.dropWhile_cons_of_pos hx] at h; exact ih h
    · rw [List.dropWhile_cons_of_neg hx] at h
      simp at h; subst h; simpa using hx

theorem head?_rdrop {α : Type} (p : α → Bool) (l : List α) (a : α)
    (h : ((l.reverse.dropWhile p).reverse).head? = some a) : l.head? = some a := by
  have hp : (l.reverse.dropWhile p).reverse <+: l := by
    have := (List.dropWhile_suffix p (l := l.reverse))
    simpa using List.reverse_prefix.mpr this
  obtain ⟨t, ht⟩ := hp
  rw [← ht]
  cases hq : (l.reverse.dropWhile p).reverse with
  | nil => rw [hq] at h; simp at h
  | cons y ys => rw [hq] at h; simpa using h

theorem TrimSpace_head (s : Text) (ch : Char) (h : (TrimSpace s).head? = some ch) :
    isSpace ch = false := by
  unfold TrimSpace at h
  exact head?_dropWhile_false isSpace s ch (head?_rdrop isSpace _ ch h)

theorem TrimSpace_getLast (s : Text) (ch : Char) (h : (TrimSpace s).getLast? = some ch) :
    isSpace ch = false := by
  unfold TrimSpace at h
  rw [List.getLast?_reverse] at h
  exact head?_dropWhile_false isSpace _ ch h

theorem TrimSpace_decompose (s : Text) :
    ∃ pre post, s = pre ++ TrimSpace s ++ post ∧
      (∀ ch ∈ pre, isSpace ch = true) ∧ (∀ ch ∈ post, isSpace ch = true) := by
  refine ⟨s.takeWhile isSpace, ((s.dropWhile isSpace).reverse.takeWhile isSpace).reverse, ?_, ?_, ?_⟩
  · unfold TrimSpace
    rw [List.append_assoc, ← List.reverse_append, List.takeWhile_append_dropWhile,
      List.reverse_reverse, List.takeWhile_append_dropWhile]
  · intro ch hch; exact List.mem_takeWhile_imp hch
  · intro ch hch
    rw [List.mem_reverse] at hch
    exact List.mem_takeWhile_imp hch

theorem digitChar_isDigit (n : Nat) (h : n < 10) : isDigit (Nat.digitChar n) = true := by
  interval_cases n <;> decide

theorem toDigitsCore_digits (fuel : Nat) : ∀ (n : Nat) (ds : List Char),
    (∀ ch ∈ ds, isDigit ch = true) →
    ∀ ch ∈ Nat.toDigitsCore 10 fuel n ds, isDigit ch = true := by
  induction fuel with
  | zero => intro n ds h; simpa [Nat.toDigitsCore] using h
  | succ f ih =>
    intro n ds h
    have hd : isDigit (Nat.digitChar (n % 10)) = true :=
      digitChar_isDigit _ (Nat.mod_lt _ (by decide))
    have hds : ∀ ch ∈ Nat.digitChar (n % 10) :: ds, isDigit ch = true := by
      intro ch hch
      rcases List.mem_cons.mp hch with rfl | hch
      · exact hd
      · exact h ch hch
    unfold Nat.toDigitsCore
    by_cases h0 : n / 10 = 0
    · simpa [h0] using hds
    · simp only [h0, if_false]
      exact ih _ _ hds

theorem toDigitsCore_ne_nil (fuel : Nat) : ∀ (n : Nat) (ds : List Char),
    (0 < fuel ∨ ds ≠ []) → Nat.toDigitsCore 10 fuel n ds ≠ [] := by
  induction fuel with
  | zero => intro n ds h; rcases h with h | h; · omega
            · simpa [Nat.toDigitsCore] using h
  | succ f ih =>
    intro n ds _
    unfold Nat.toDigitsCore
    by_cases h0 : n / 10 = 0
    · simp [h0]
    · simp only [h0, if_false]
      exact ih _ _ (Or.inr (by simp))

theorem toDigits_digits (n : Nat) :
    Nat.toDigits 10 n ≠ [] ∧ ∀ ch ∈ Nat.toDigits 10 n, isDigit ch = true :=
  ⟨toDigitsCore_ne_nil _ _ _ (Or.inl (Nat.succ_pos n)),
   toDigitsCore_digits _ _ _ (by simp)⟩

theorem formatInt_isIntegerText (t : Int) : isIntegerText (formatInt t) := by
  unfold formatInt
  by_cases h : t < 0
  · exact ⟨Nat.toDigits 10 t.natAbs, (toDigits_digits _).1, (toDigits_digits _).2,
      Or.inr (by simp [h])⟩
  · exact ⟨Nat.toDigits 10 t.toNat, (toDigits_digits _).1, (toDigits_digits _).2,
      Or.inl (by simp [h])⟩

theorem uuidShape_hexOrDash : ∀ (u : Text) (i : Nat), uuidShape i u = true →
    ∀ ch ∈ u, isHexOrDash ch = true := by
  intro u
  induction u with
  | nil => intro i _ ch hch; simp at hch
  | cons x xs ih =>
    intro i h ch hch
    simp only [uuidShape, Bool.and_eq_true] at h
    rcases List.mem_cons.mp hch with rfl | hch
    · have h1 := h.1
      unfold isHexOrDash
      split at h1
      · simp [h1]
      · simp only [Bool.or_eq_true] at h1 ⊢
        exact Or.inl h1
    · exact ih (i + 1) h.2 ch hch

theorem generateRequestID_canonical (u : Text) (h : isCanonicalUUID u = true) :
    generateRequestID u = some (u.take 24) ∧ (u.take 24).length = 24 ∧
      ∀ ch ∈ u.take 24, isHexOrDash ch = true := by
  simp only [isCanonicalUUID, Bool.and_eq_true, beq_iff_eq] at h
  refine ⟨?_, ?_, ?_⟩
  · simp [generateRequestID, slicePrefix, h.1]
  · simp [h.1]
  · intro ch hch
    exact uuidShape_hexOrDash u 0 h.2 ch (List.mem_of_mem_take hch)

theorem processRows_skip (E : Env) (nrows c : Nat) (row : Row) (rest : List Row) (i : Nat)
    (st : St) (h : requestOf c row = none) :
    processRows E nrows c (row :: rest) i st = processRows E nrows c rest (i + 1) st := by
  unfold requestOf at h
  rw [processRows]
  by_cases hl : row.length ≤ c
  · simp [hl]
  · cases hc : row.get? c with
    | none => simp [List.get?_eq_none] at hc; omega
    | some cell =>
      rw [hc] at h
      by_cases ht : TrimSpace cell = []
      · simp [hl, ht]
      · simp [ht] at h

theorem processRows_emit (E : Env) (nrows c : Nat) (row : Row) (rest : List Row) (i : Nat)
    (st : St) (request requestID : Text) (h : requestOf c row = some request)
    (hid : generateRequestID (E.uuid st.gen) = some requestID) :
    processRows E nrows c (row :: rest) i st =
      if E.writeOk st.out.length then
        if E.writeOk (st.out.length + 1) then
          if (i : Int) < (nrows : Int) - 2 then
            if E.writeOk (st.out.length + 2) then
              processRows E nrows c rest (i + 1)
                ⟨st.count + 1, st.gen + 1,
                  st.out ++ [Chunk.meta requestID (E.now st.gen), Chunk.body request, Chunk.sep]⟩
            else
              .done st.count (some .writeFailed)
                (some (st.out ++ [Chunk.meta requestID (E.now st.gen), Chunk.body request]))
          else
            processRows E nrows c rest (i + 1)
              ⟨st.count + 1, st.gen + 1,
                st.out ++ [Chunk.meta requestID (E.now st.gen), Chunk.body request]⟩
        else
          .done st.count (some .writeFailed) (some (st.out ++ [Chunk.meta requestID (E.now st.gen)]))
      else
        .done st.count (some .writeFailed) (some st.out) := by
  unfold requestOf at h
  rw [processRows]
  cases hc : row.get? c with
  | none => rw [hc] at h; simp at h
  | some cell =>
    rw [hc] at h
    have hl : ¬ row.length ≤ c := by
      intro hl
      have := List.get?_eq_none.mpr hl
      rw [this] at hc; simp at hc
    by_cases ht : TrimSpace cell = []
    · simp [ht] at h
    · simp only [ht, if_false, Option.some.injEq] at h
      subst h
      simp [hl, ht, hid, List.append_assoc, getTimestamp]

theorem processRows_success (E : Env) (nrows c : Nat)
    (hU : ∀ k, isCanonicalUUID (E.uuid k) = true) :
    ∀ (data : List Row) (i : Nat) (st : St), nrows = i + data.length + 1 →
      (∀ j, j ≤ (recordWrites E c data st.gen).length → E.writeOk (st.out.length + j) = true) →
      processRows E nrows c data i st =
        .done (st.count + (data.filterMap (requestOf c)).length) none
          (some (st.out ++ recordWrites E c data st.gen ++ [Chunk.sep])) := by
  intro data
  induction data with
  | nil =>
    intro i st _ hW
    have := hW 0 (Nat.zero_le _)
    simp only [Nat.add_zero] at this
    simp [processRows, recordWrites, this]
  | cons row rest ih =>
    intro i st hn hW
    cases hr : requestOf c row with
    | none =>
      rw [processRows_skip E nrows c row rest i st hr]
      simp only [recordWrites, hr] at hW ⊢
      rw [ih (i + 1) st (by simp at hn; omega) hW]
      simp [List.filterMap_cons, hr]
    | some request =>
      have hid := (generateRequestID_canonical _ (hU st.gen)).1
      rw [processRows_emit E nrows c row rest i st request _ hr hid]
      simp only [recordWrites, hr] at hW ⊢
      have h0 := hW 0 (Nat.zero_le _)
      have h1 := hW 1 (by simp)
      simp only [Nat.add_zero] at h0
      by_cases he : rest = []
      · subst he
        have hi : ¬ ((i : Int) < (nrows : Int) - 2) := by simp at hn; omega
        simp only [h0, h1, hi, if_true, if_false]
        rw [ih (i + 1) _ (by simp at hn ⊢; omega) (by
          intro j hj
          simp [recordWrites] at hj
          subst hj
          simpa [Nat.add_assoc] using hW 2 (by simp [recordWrites]))]
        simp [List.filterMap_cons, hr, recordWrites, Nat.add_assoc]
      · have hi : (i : Int) < (nrows : Int) - 2 := by
          have : 0 < rest.length := List.length_pos.mpr he
          simp at hn; omega
        have h2 := hW 2 (by simp [he])
        simp only [h0, h1, h2, hi, if_true]
        rw [ih (i + 1) _ (by simp at hn ⊢; omega) (by
          intro j hj
          dsimp only at hj ⊢
          have := hW (j + 3) (by simp [he]; omega)
          have e : (st.out ++ [Chunk.meta (List.take 24 (E.uuid st.gen)) (E.now st.gen),
              Chunk.body request, Chunk.sep]).length + j = st.out.length + (j + 3) := by
            simp; omega
          rw [e]; exact this)]
        simp [List.filterMap_cons, hr, he]
        omega

theorem bodyCount_nil : bodyCount [] = 0 := rfl

theorem bodyCount_meta (id : Text) (ts : Int) (l : List Chunk) :
    bodyCount (Chunk.meta id ts :: l) = bodyCount l := by simp [bodyCount]

theorem bodyCount_body (b : Text) (l : List Chunk) :
    bodyCount (Chunk.body b :: l) = bodyCount l + 1 := by simp [bodyCount]

theorem bodyCount_sep (l : List Chunk) :
    bodyCount (Chunk.sep :: l) = bodyCount l := by simp [bodyCount]

theorem processRows_failure (E : Env) (nrows c : Nat)
    (hU : ∀ k, isCanonicalUUID (E.uuid k) = true) :
    ∀ (data : List Row) (i : Nat) (st : St) (k : Nat), nrows = i + data.length + 1 →
      k ≤ (recordWrites E c data st.gen).length →
      (∀ j, j < k → E.writeOk (st.out.length + j) = true) →
      E.writeOk (st.out.length + k) = false →
      ∃ cnt, processRows E nrows c data i st =
          .done cnt (some .writeFailed) (some (st.out ++ (recordWrites E c data st.gen).take k)) ∧
        cnt + (if (recordWrites E c data st.gen).get? k = some Chunk.sep then 1 else 0) =
          st.count + bodyCount ((recordWrites E c data st.gen).take k) := by
  intro data
  induction data with
  | nil =>
    intro i st k _ hk _ hf
    simp only [recordWrites, List.length_nil, Nat.le_zero] at hk
    subst hk
    simp only [Nat.add_zero] at hf
    exact ⟨st.count, by simp [processRows, recordWrites, hf], by simp [recordWrites, bodyCount_nil]⟩
  | cons row rest ih =>
    intro i st k hn hk hpre hf
    cases hr : requestOf c row with
    | none =>
      rw [processRows_skip E nrows c row rest i st hr]
      simp only [recordWrites, hr] at hk ⊢
      exact ih (i + 1) st k (by simp at hn; omega) hk hpre hf
    | some request =>
      have hid := (generateRequestID_canonical _ (hU st.gen)).1
      rw [processRows_emit E nrows c row rest i st request _ hr hid]
      simp only [recordWrites, hr] at hk ⊢
      rcases k with _ | _ | k
      · simp only [Nat.add_zero] at hf
        exact ⟨st.count, by simp [hf], by simp [bodyCount_nil]⟩
      · have h0 := hpre 0 (by omega)
        simp only [Nat.add_zero] at h0
        simp only [Nat.zero_add] at hf
        exact ⟨st.count, by simp [h0, hf], by simp [bodyCount_meta, bodyCount_nil]⟩
      · have h0 := hpre 0 (by omega)
        have h1 := hpre 1 (by omega)
        simp only [Nat.add_zero] at h0
        by_cases he : rest = []
        · subst he
          have hi : ¬ ((i : Int) < (nrows : Int) - 2) := by simp at hn; omega
          simp [recordWrites] at hk
          subst hk
          simp only [Nat.zero_add] at hf
          refine ⟨st.count + 1, ?_, ?_⟩
          · simp [h0, h1, hi, processRows, recordWrites, hf]
          · simp [recordWrites, bodyCount_meta, bodyCount_body, bodyCount_nil]
        · have hi : (i : Int) < (nrows : Int) - 2 := by
            have : 0 < rest.length := List.length_pos.mpr he
            simp at hn; omega
          rcases k with _ | k
          · simp only [Nat.zero_add] at hf
            exact ⟨st.count, by simp [h0, h1, hi, hf, he],
              by simp [he, bodyCount_meta, bodyCount_body, bodyCount_nil]⟩
          · have h2 := hpre 2 (by omega)
            simp only [h0, h1, h2, hi, if_true]
            have hlen : (st.out ++ [Chunk.meta (List.take 24 (E.uuid st.gen)) (E.now st.gen),
                Chunk.body request, Chunk.sep]).length = st.out.length + 3 := by simp
            obtain ⟨cnt, hres, hcnt⟩ := ih (i + 1)
              ⟨st.count + 1, st.gen + 1, st.out ++ [Chunk.meta (List.take 24 (E.uuid st.gen))
                (E.now st.gen), Chunk.body request, Chunk.sep]⟩ k
              (by simp at hn ⊢; omega)
              (by simp [he] at hk ⊢; omega)
              (by
                intro j hj
                dsimp only
                rw [hlen]
                have := hpre (j + 3) (by omega)
                rw [show st.out.length + 3 + j = st.out.length + (j + 3) by omega]
                exact this)
              (by
                dsimp only
                rw [hlen, show st.out.length + 3 + k = st.out.length + (k + 1 + 1 + 1) by omega]
                exact hf)
            refine ⟨cnt, ?_, ?_⟩
            · rw [hres]; simp [he]
            · dsimp only at hcnt
              simp only [he, List.isEmpty_eq_true, if_false, List.cons_append, List.nil_append,
                List.get?_cons_succ, List.take_succ_cons, bodyCount_meta, bodyCount_body,
                bodyCount_sep]
              omega

theorem requestOf_eq_none_iff (c : Nat) (row : Row) :
    requestOf c row = none ↔ skipped c row = true := by
  unfold requestOf skipped
  by_cases hl : row.length ≤ c
  · rw [List.get?_eq_none.mpr hl]; simp [hl]
  · have hlt : c < row.length := by omega
    rw [List.get?_eq_get hlt]
    simp only [List.getD_eq_getElem?_getD, List.getElem?_eq_getElem hlt, Option.getD_some, hl,
      decide_False, Bool.false_or, decide_eq_true_eq, List.get_eq_getElem]
    by_cases ht : TrimSpace row[c] = []
    · simp [ht]
    · simp [ht]

theorem requestOf_eq_some (c : Nat) (row : Row) (request : Text)
    (h : requestOf c row = some request) :
    ∃ cell, row.get? c = some cell ∧ request = TrimSpace cell ∧ request ≠ [] := by
  unfold requestOf at h
  cases hc : row.get? c with
  | none => rw [hc] at h; simp at h
  | some cell =>
    rw [hc] at h
    by_cases ht : TrimSpace cell = []
    · simp [ht] at h
    · simp only [ht, if_false, Option.some.injEq] at h
      exact ⟨cell, rfl, h.symm, h ▸ ht⟩

theorem filterMap_requestOf_length (c : Nat) (data : List Row) :
    (data.filterMap (requestOf c)).length = data.countP (fun row => !skipped c row) := by
  induction data with
  | nil => rfl
  | cons row rest ih =>
    cases hr : requestOf c row with
    | none =>
      have := (requestOf_eq_none_iff c row).mp hr
      simp [List.filterMap_cons, hr, List.countP_cons, this, ih]
    | some request =>
      have : skipped c row = false := by
        cases hs : skipped c row with
        | false => rfl
        | true => rw [(requestOf_eq_none_iff c row).mpr hs] at hr; simp at hr
      simp [List.filterMap_cons, hr, List.countP_cons, this, ih]

theorem scanHeaders_found (name : Text) : ∀ (headers : List Text) (i : Nat),
    name ∈ headers →
    ∃ c : Nat, scanHeaders name headers i = ((i + c : Nat) : Int) ∧ headers.get? c = some name ∧
      ∀ j, j < c → headers.get? j ≠ some name := by
  intro headers
  induction headers with
  | nil => intro i h; simp at h
  | cons header rest ih =>
    intro i h
    by_cases hh : header = name
    · refine ⟨0, by simp [scanHeaders, hh], by simp [hh], by intro j hj; omega⟩
    · have hm : name ∈ rest := by
        rcases List.mem_cons.mp h with h | h
        · exact absurd h.symm hh
        · exact h
      obtain ⟨c, hc, hget, hleast⟩ := ih (i + 1) hm
      refine ⟨c + 1, ?_, by simpa using hget, ?_⟩
      · simp only [scanHeaders, hh, if_false, hc]
        congr 1; omega
      · intro j hj
        cases j with
        | zero => simpa using hh
        | succ j => simpa using hleast j (by omega)

theorem scanHeaders_not_found (name : Text) : ∀ (headers : List Text) (i : Nat),
    name ∉ headers → scanHeaders name headers i = -1 := by
  intro headers
  induction headers with
  | nil => intro i _; rfl
  | cons header rest ih =>
    intro i h
    simp only [List.mem_cons, not_or] at h
    simp only [scanHeaders, Ne.symm h.1, if_false]
    exact ih (i + 1) h.2

theorem extract_eq_processRows (E : Env) (headers : Row) (data : List Row) (name : Text)
    (c : Nat) (hc : scanHeaders name headers 0 = (c : Int)) (hcreate : E.createOk = true) :
    extractRequestsFromExcel E (headers :: data) name =
      processRows E (data.length + 1) c data 0 ⟨0, 0, []⟩ := by
  have hne : ¬ ((c : Int) = -1) := by omega
  simp [extractRequestsFromExcel, hc, hne, hcreate]

theorem bodyCount_append (l₁ l₂ : List Chunk) :
    bodyCount (l₁ ++ l₂) = bodyCount l₁ + bodyCount l₂ := by
  simp [bodyCount]

theorem bodyCount_recordWrites (E : Env) (c : Nat) : ∀ (data : List Row) (gen : Nat),
    bodyCount (recordWrites E c data gen) = (data.filterMap (requestOf c)).length := by
  intro data
  induction data with
  | nil => intro gen; rfl
  | cons row rest ih =>
    intro gen
    cases hr : requestOf c row with
    | none => simp [recordWrites, hr, List.filterMap_cons, ih]
    | some request =>
      by_cases he : rest = []
      · subst he
        simp [recordWrites, hr, List.filterMap_cons, bodyCount_meta, bodyCount_body, bodyCount_nil]
      · simp [recordWrites, hr, he, List.filterMap_cons, bodyCount_meta, bodyCount_body,
          bodyCount_sep, ih]

theorem extract_success (E : Env) (headers : Row) (data : List Row) (name : Text) (c : Nat)
    (hc : scanHeaders name headers 0 = (c : Int)) (hcreate : E.createOk = true)
    (hU : ∀ k, isCanonicalUUID (E.uuid k) = true) (hW : ∀ k, E.writeOk k = true) :
    extractRequestsFromExcel E (headers :: data) name =
      .done (data.filterMap (requestOf c)).length none
        (some (recordWrites E c data 0 ++ [Chunk.sep])) := by
  rw [extract_eq_processRows E headers data name c hc hcreate,
    processRows_success E _ c hU data 0 ⟨0, 0, []⟩ (by simp) (fun j _ => hW _)]
  simp

theorem processRows_emit_panic (E : Env) (nrows c : Nat) (row : Row) (rest : List Row) (i : Nat)
    (st : St) (request : Text) (h : requestOf c row = some request)
    (hid : generateRequestID (E.uuid st.gen) = none) :
    processRows E nrows c (row :: rest) i st = .panic .idSlice := by
  unfold requestOf at h
  rw [processRows]
  cases hc : row.get? c with
  | none => rw [hc] at h; simp at h
  | some cell =>
    rw [hc] at h
    have hl : ¬ row.length ≤ c := by
      intro hl
      have := List.get?_eq_none.mpr hl
      rw [this] at hc; simp at hc
    by_cases ht : TrimSpace cell = []
    · simp [ht] at h
    · simp [hl, ht, hid]

theorem processRows_cons_congr (E : Env) (nrows c : Nat) (row row2 : Row) (rest rest2 : List Row)
    (hrow : requestOf c row = requestOf c row2)
    (hrest : ∀ i st, processRows E nrows c rest i st = processRows E nrows c rest2 i st)
    (i : Nat) (st : St) :
    processRows E nrows c (row :: rest) i st = processRows E nrows c (row2 :: rest2) i st := by
  cases hr : requestOf c row with
  | none =>
    rw [processRows_skip E nrows c row rest i st hr,
      processRows_skip E nrows c row2 rest2 i st (hrow ▸ hr), hrest]
  | some request =>
    have hr2 : requestOf c row2 = some request := hrow ▸ hr
    cases hid : generateRequestID (E.uuid st.gen) with
    | none =>
      rw [processRows_emit_panic E nrows c row rest i st request hr hid,
        processRows_emit_panic E nrows c row2 rest2 i st request hr2 hid]
    | some requestID =>
      rw [processRows_emit E nrows c row rest i st request requestID hr hid,
        processRows_emit E nrows c row2 rest2 i st request requestID hr2 hid]
      simp only [hrest]

theorem processRows_congr (E : Env) (nrows c : Nat) (data data2 : List Row)
    (h : List.Forall₂ (fun r r2 => r.get? c = r2.get? c) data data2) :
    ∀ i st, processRows E nrows c data i st = processRows E nrows c data2 i st := by
  induction h with
  | nil => intro i st; rfl
  | cons hrow _ ih =>
    intro i st
    exact processRows_cons_congr E nrows c _ _ _ _ (by simp only [requestOf, hrow]) ih i st

theorem processRows_panic_cause (E : Env) (nrows c : Nat) :
    ∀ (data : List Row) (i : Nat) (st : St) (cause : Panic),
      processRows E nrows c data i st = .panic cause → cause = .idSlice := by
  intro data
  induction data with
  | nil =>
    intro i st cause h
    rw [processRows] at h
    split at h <;> simp at h
  | cons row rest ih =>
    intro i st cause h
    cases hr : requestOf c row with
    | none =>
      rw [processRows_skip E nrows c row rest i st hr] at h
      exact ih _ _ _ h
    | some request =>
      cases hid : generateRequestID (E.uuid st.gen) with
      | none =>
        rw [processRows_emit_panic E nrows c row rest i st request hr hid] at h
        simpa using h.symm
      | some requestID =>
        rw [processRows_emit E nrows c row rest i st request requestID hr hid] at h
        repeat' split at h
        all_goals first
          | exact ih _ _ _ h
          | simp at h

theorem recordWrites_all_skipped (E : Env) (c : Nat) : ∀ (data : List Row) (gen : Nat),
    (∀ row ∈ data, skipped c row = true) → recordWrites E c data gen = [] := by
  intro data
  induction data with
  | nil => intro gen _; rfl
  | cons row rest ih =>
    intro gen h
    have hr := (requestOf_eq_none_iff c row).mpr (h row (List.mem_cons_self _ _))
    simp only [recordWrites, hr]
    exact ih gen (fun r hr => h r (List.mem_cons_of_mem _ hr))

theorem processRows_general (E : Env) (nrows c : Nat)
    (hU : ∀ k, isCanonicalUUID (E.uuid k) = true) (data : List Row) (i : Nat) (st : St)
    (hn : nrows = i + data.length + 1) :
    ∃ count err k, processRows E nrows c data i st =
        .done count err (some (st.out ++ (recordWrites E c data st.gen ++ [Chunk.sep]).take k)) ∧
      (err = none → (recordWrites E c data st.gen ++ [Chunk.sep]).length ≤ k) := by
  by_cases hall : ∀ j, j ≤ (recordWrites E c data st.gen).length →
      E.writeOk (st.out.length + j) = true
  · refine ⟨st.count + (data.filterMap (requestOf c)).length, none,
      (recordWrites E c data st.gen ++ [Chunk.sep]).length, ?_, fun _ => le_refl _⟩
    rw [processRows_success E nrows c hU data i st hn hall, List.take_length, List.append_assoc]
  · have hex : ∃ j, ¬ (j ≤ (recordWrites E c data st.gen).length →
        E.writeOk (st.out.length + j) = true) := by
      by_contra hcon
      exact hall (fun j hj => by
        by_contra hj2
        exact hcon ⟨j, fun h => hj2 (h hj)⟩)
    classical
    have hk := Nat.find_spec hex
    have hmin := fun j (hj : j < Nat.find hex) => Nat.find_min hex hj
    generalize Nat.find hex = k at hk hmin
    have hk1 : k ≤ (recordWrites E c data st.gen).length := by
      by_contra h; exact hk (fun h2 => absurd h2 h)
    have hk2 : E.writeOk (st.out.length + k) = false := by
      cases hw : E.writeOk (st.out.length + k) with
      | false => rfl
      | true => exact absurd (fun _ => hw) hk
    have hpre : ∀ j, j < k → E.writeOk (st.out.length + j) = true := by
      intro j hj
      have := hmin j hj
      by_contra h
      exact this (fun h2 => absurd (h2 (by omega)) h)
    obtain ⟨count, hres, _⟩ := processRows_failure E nrows c hU data i st k hn hk1 hpre hk2
    refine ⟨count, some .writeFailed, k, ?_, by simp⟩
    rw [hres, List.take_append_of_le_length hk1]

theorem extract_general (E : Env) (headers : Row) (data : List Row) (name : Text) (c : Nat)
    (hc : scanHeaders name headers 0 = (c : Int)) (hcreate : E.createOk = true)
    (hU : ∀ k, isCanonicalUUID (E.uuid k) = true) :
    ∃ count err k, extractRequestsFromExcel E (headers :: data) name =
        .done count err (some ((recordWrites E c data 0 ++ [Chunk.sep]).take k)) ∧
      (err = none → (recordWrites E c data 0 ++ [Chunk.sep]).length ≤ k) := by
  rw [extract_eq_processRows E headers data name c hc hcreate]
  simpa using processRows_general E (data.length + 1) c hU data 0 ⟨0, 0, []⟩ (by simp)

theorem filter_notSep_recordWrites (E : Env) (c : Nat) : ∀ (data : List Row) (gen : Nat),
    (recordWrites E c data gen).filter notSep =
      recordChunks E (data.filterMap (requestOf c)) gen := by
  intro data
  induction data with
  | nil => intro gen; rfl
  | cons row rest ih =>
    intro gen
    cases hr : requestOf c row with
    | none => simp [recordWrites, hr, List.filterMap_cons, ih]
    | some request =>
      by_cases he : rest = []
      · subst he
        simp [recordWrites, hr, List.filterMap_cons, recordChunks, notSep]
      · simp [recordWrites, hr, he, List.filterMap_cons, recordChunks, notSep, ih]

theorem mem_filterMap_requestOf (c : Nat) (data : List Row) (request : Text)
    (h : request ∈ data.filterMap (requestOf c)) :
    (∃ row ∈ data, ∃ cell pre post, row.get? c = some cell ∧ request = TrimSpace cell ∧
        cell = pre ++ request ++ post ∧ (∀ ch ∈ pre, isSpace ch = true) ∧
        (∀ ch ∈ post, isSpace ch = true)) ∧
      request ≠ [] ∧ (∀ ch, request.head? = some ch → isSpace ch = false) ∧
      (∀ ch, request.getLast? = some ch → isSpace ch = false) := by
  obtain ⟨row, hrow, hreq⟩ := List.mem_filterMap.mp h
  obtain ⟨cell, hcell, heq, hne⟩ := requestOf_eq_some c row request hreq
  obtain ⟨pre, post, hdec, hpre, hpost⟩ := TrimSpace_decompose cell
  refine ⟨⟨row, hrow, cell, pre, post, hcell, heq, by rw [heq]; exact hdec, hpre, hpost⟩,
    hne, ?_, ?_⟩
  · intro ch hch; rw [heq] at hch; exact TrimSpace_head cell ch hch
  · intro ch hch; rw [heq] at hch; exact TrimSpace_getLast cell ch hch

theorem sepCount_recordWrites (E : Env) (c : Nat) : ∀ (data : List Row) (gen : Nat),
    sepCount (recordWrites E c data gen) + (if lastRowEmitted c data = true then 1 else 0) =
      (data.filterMap (requestOf c)).length := by
  intro data
  induction data with
  | nil => intro gen; rfl
  | cons row rest ih =>
    intro gen
    by_cases he : rest = []
    · subst he
      cases hr : requestOf c row with
      | none => simp [recordWrites, hr, lastRowEmitted, sepCount]
      | some request => simp [recordWrites, hr, lastRowEmitted, sepCount]
    · obtain ⟨r, rs, hrs⟩ := List.exists_cons_of_ne_nil he
      have hlast : lastRowEmitted c (row :: rest) = lastRowEmitted c rest := by
        simp [lastRowEmitted, hrs, List.getLast?_cons_cons]
      rw [hlast]
      cases hr : requestOf c row with
      | none =>
        simp only [recordWrites, hr, List.filterMap_cons]
        exact ih gen
      | some request =>
        have := ih (gen + 1)
        simp only [recordWrites, hr, List.filterMap_cons, List.length_cons]
        simp only [sepCount] at this ⊢
        simp [he]
        omega

theorem mem_recordWrites_meta (E : Env) (c : Nat) (id : Text) (ts : Int) :
    ∀ (data : List Row) (gen : Nat), Chunk.meta id ts ∈ recordWrites E c data gen →
      ∃ k, id = (E.uuid k).take 24 ∧ ts = E.now k := by
  intro data
  induction data with
  | nil => intro gen h; simp [recordWrites] at h
  | cons row rest ih =>
    intro gen h
    cases hr : requestOf c row with
    | none =>
      simp only [recordWrites, hr] at h
      exact ih gen h
    | some request =>
      simp only [recordWrites, hr, List.mem_append, List.mem_cons, List.mem_singleton] at h
      rcases h with (h | h) | h
      · rcases h with h | h | h
        · injection h with h1 h2
          exact ⟨gen, h1, h2⟩
        · cases h
        · simp at h
      · split at h
        · simp at h
        · simp at h
      · exact ih (gen + 1) h

theorem head?_recordWrites (E : Env) (c : Nat) : ∀ (data : List Row) (gen : Nat),
    (recordWrites E c data gen).head? ≠ some Chunk.sep := by
  intro data
  induction data with
  | nil => intro gen; simp [recordWrites]
  | cons row rest ih =>
    intro gen
    cases hr : requestOf c row with
    | none => simp only [recordWrites, hr]; exact ih gen
    | some request => simp [recordWrites, hr]

theorem recordWrites_cons_some (E : Env) (c : Nat) (row : Row) (rest : List Row) (gen : Nat)
    (request : Text) (hr : requestOf c row = some request) (he : rest ≠ []) :
    recordWrites E c (row :: rest) gen =
      Chunk.meta ((E.uuid gen).take 24) (E.now gen) :: Chunk.body request :: Chunk.sep ::
        recordWrites E c rest (gen + 1) := by
  simp [recordWrites, hr, he]

theorem recordWrites_split (E : Env) (c : Nat) (row : Row) (post : List Row) (request : Text)
    (hr : requestOf c row = some request) : ∀ (pre : List Row) (gen : Nat),
    ∃ before, recordWrites E c (pre ++ row :: post) gen =
        before ++
          ([Chunk.meta ((E.uuid (gen + (pre.filterMap (requestOf c)).length)).take 24)
              (E.now (gen + (pre.filterMap (requestOf c)).length)), Chunk.body request] ++
            (if post = [] then [] else [Chunk.sep]) ++
            recordWrites E c post (gen + (pre.filterMap (requestOf c)).length + 1)) ∧
      bodyCount before = (pre.filterMap (requestOf c)).length := by
  intro pre
  induction pre with
  | nil =>
    intro gen
    refine ⟨[], ?_, rfl⟩
    by_cases he : post = []
    · simp [recordWrites, hr, he]
    · simp [recordWrites, hr, he]
  | cons p ps ih =>
    intro gen
    have hne : (ps ++ row :: post).isEmpty = false := by
      cases ps <;> rfl
    cases hp : requestOf c p with
    | none =>
      obtain ⟨before, hb, hcount⟩ := ih gen
      refine ⟨before, ?_, ?_⟩
      · simp only [List.cons_append, recordWrites, hp, List.filterMap_cons]
        exact hb
      · simp only [List.filterMap_cons, hp]; exact hcount
    | some r =>
      obtain ⟨before, hb, hcount⟩ := ih (gen + 1)
      have e : gen + ((ps.filterMap (requestOf c)).length + 1) =
          gen + 1 + (ps.filterMap (requestOf c)).length := by omega
      refine ⟨[Chunk.meta ((E.uuid gen).take 24) (E.now gen), Chunk.body r, Chunk.sep] ++ before,
        ?_, ?_⟩
      · have hne2 : ps ++ row :: post ≠ [] := by simp
        rw [List.cons_append, recordWrites_cons_some E c p _ gen r hp hne2, hb]
        simp only [List.filterMap_cons, hp, List.length_cons, e]
        simp
      · simp only [List.filterMap_cons, hp, List.length_cons, bodyCount_append, hcount]
        simp [bodyCount]
        omega

theorem recordWrites_last_emitted (E : Env) (c : Nat) : ∀ (data : List Row) (gen : Nat),
    lastRowEmitted c data = true →
    ∃ before id ts request,
      recordWrites E c data gen = before ++ [Chunk.meta id ts, Chunk.body request] := by
  intro data
  induction data with
  | nil => intro gen h; simp [lastRowEmitted] at h
  | cons row rest ih =>
    intro gen h
    by_cases he : rest = []
    · subst he
      cases hr : requestOf c row with
      | none => simp [lastRowEmitted, hr] at h
      | some request =>
        exact ⟨[], (E.uuid gen).take 24, E.now gen, request, by simp [recordWrites, hr]⟩
    · obtain ⟨r, rs, hrs⟩ := List.exists_cons_of_ne_nil he
      have hlast : lastRowEmitted c (row :: rest) = lastRowEmitted c rest := by
        simp [lastRowEmitted, hrs, List.getLast?_cons_cons]
      rw [hlast] at h
      cases hr : requestOf c row with
      | none =>
        simp only [recordWrites, hr]
        exact ih gen h
      | some request =>
        obtain ⟨before, id, ts, req, hb⟩ := ih (gen + 1) h
        refine ⟨[Chunk.meta ((E.uuid gen).take 24) (E.now gen), Chunk.body request,
          Chunk.sep] ++ before, id, ts, req, ?_⟩
        simp [recordWrites, hr, he, hb]

theorem recordWrites_last_skipped (E : Env) (c : Nat) : ∀ (data : List Row) (gen : Nat),
    lastRowEmitted c data = false → recordWrites E c data gen ≠ [] →
    ∃ before request,
      recordWrites E c data gen = before ++ [Chunk.body request, Chunk.sep] := by
  intro data
  induction data with
  | nil => intro gen _ h; simp [recordWrites] at h
  | cons row rest ih =>
    intro gen h hne
    by_cases he : rest = []
    · subst he
      cases hr : requestOf c row with
      | none => simp [recordWrites, hr] at hne
      | some request => simp [lastRowEmitted, hr] at h
    · obtain ⟨r, rs, hrs⟩ := List.exists_cons_of_ne_nil he
      have hlast : lastRowEmitted c (row :: rest) = lastRowEmitted c rest := by
        simp [lastRowEmitted, hrs, List.getLast?_cons_cons]
      rw [hlast] at h
      cases hr : requestOf c row with
      | none =>
        simp only [recordWrites, hr] at hne ⊢
        exact ih gen h hne
      | some request =>
        by_cases hrest : recordWrites E c rest (gen + 1) = []
        · exact ⟨[Chunk.meta ((E.uuid gen).take 24) (E.now gen)], request, by
            simp [recordWrites, hr, he, hrest]⟩
        · obtain ⟨before, req, hb⟩ := ih (gen + 1) h hrest
          refine ⟨[Chunk.meta ((E.uuid gen).take 24) (E.now gen), Chunk.body request,
            Chunk.sep] ++ before, req, ?_⟩
          simp [recordWrites, hr, he, hb]

theorem extract_failure (E : Env) (headers : Row) (data : List Row) (name : Text) (c : Nat)
    (hc : scanHeaders name headers 0 = (c : Int)) (hcreate : E.createOk = true)
    (hU : ∀ k, isCanonicalUUID (E.uuid k) = true) (k : Nat)
    (hk : k ≤ (recordWrites E c data 0).length)
    (hpre : ∀ j, j < k → E.writeOk j = true) (hf : E.writeOk k = false) :
    ∃ count, extractRequestsFromExcel E (headers :: data) name =
      .done count (some .writeFailed)
        (some ((recordWrites E c data 0 ++ [Chunk.sep]).take k)) := by
  obtain ⟨count, hres, _⟩ := processRows_failure E (data.length + 1) c hU data 0
    ⟨0, 0, []⟩ k (by simp) hk (by simpa using hpre) (by simpa using hf)
  refine ⟨count, ?_⟩
  rw [extract_eq_processRows E headers data name c hc hcreate, hres,
    List.take_append_of_le_length hk]
  simp

theorem fileBytes_recordChunks (E : Env) : ∀ (requests : List Text) (k : Nat),
    fileBytes (recordChunks E requests k) = recordBytes E requests k := by
  intro requests
  induction requests with
  | nil => intro k; rfl
  | cons request rest ih =>
    intro k
    have := ih (k + 1)
    simp only [fileBytes] at this
    simp [fileBytes, recordChunks, recordBytes, Chunk.bytes, this]

theorem recordChunks_get? (E : Env) : ∀ (requests : List Text) (g k : Nat) (request : Text),
    requests.get? k = some request →
    (recordChunks E requests g).get? (2 * k) =
        some (Chunk.meta ((E.uuid (g + k)).take 24) (E.now (g + k))) ∧
      (recordChunks E requests g).get? (2 * k + 1) = some (Chunk.body request) := by
  intro requests
  induction requests with
  | nil => intro g k request h; simp at h
  | cons r rest ih =>
    intro g k request h
    cases k with
    | zero =>
      simp only [List.get?_cons_zero, Option.some.injEq] at h
      subst h
      simp [recordChunks]
    | succ k =>
      simp only [List.get?_cons_succ] at h
      obtain ⟨h1, h2⟩ := ih (g + 1) k request h
      have e1 : 2 * (k + 1) = 2 * k + 1 + 1 := by omega
      have e2 : g + (k + 1) = g + 1 + k := by omega
      refine ⟨?_, ?_⟩
      · rw [e1, e2]
        simpa [recordChunks] using h1
      · rw [e1]
        simpa [recordChunks] using h2

/-! ## The claims

In the statements below `hc` says that the header scan resolves the column name to the
index `c`, `hcreate` that `os.Create` succeeds, `hU` that the identifier source yields
canonical UUID texts (as `uuid.New().String()` does), and `hW` that no `Write` fails. -/

/-- C1: when the header row resolves the column name to index `c`, the output file can be
created, the identifier source yields canonical UUID texts and every write succeeds, the
call returns no error and a count equal to the number of data rows that are not skipped,
a row being skipped when it has no cell at index `c` or the trimmed text of that cell is
empty; the output holds exactly that many request bodies. -/
theorem C1_count_of_emitted_rows (E : Env) (headers : Row) (data : List Row) (name : Text)
    (c : Nat) (hc : scanHeaders name headers 0 = (c : Int)) (hcreate : E.createOk = true)
    (hU : ∀ k, isCanonicalUUID (E.uuid k) = true) (hW : ∀ k, E.writeOk k = true) :
    ∃ out, extractRequestsFromExcel E (headers :: data) name =
        .done (data.countP (fun row => !skipped c row)) none (some out) ∧
      bodyCount out = data.countP (fun row => !skipped c row) := by
  refine ⟨recordWrites E c data 0 ++ [Chunk.sep], ?_, ?_⟩
  · rw [extract_success E headers data name c hc hcreate hU hW, filterMap_requestOf_length]
  · rw [bodyCount_append, bodyCount_recordWrites, filterMap_requestOf_length]
    simp [bodyCount]

/-- Witness of C1: header `[A, http请求, B]` with the data cells `GET /x` and the empty
text gives count 1. -/
theorem C1_count_of_emitted_rows_witness :
    scanHeaders sampleColumn sampleHeaders 0 = ((1 : Nat) : Int) ∧
    ∃ out, extractRequestsFromExcel sampleEnv (sampleHeaders :: sampleData) sampleColumn =
        .done 1 none (some out) ∧
      bodyCount out = 1 :=
  ⟨by decide,
    C1_count_of_emitted_rows sampleEnv sampleHeaders sampleData sampleColumn 1 (by decide) rfl
      (fun _ => rfl) (fun _ => rfl)⟩

/-- C3: when no header cell equals the column name, the call returns the
column-not-found error with count 0 and the output file is neither created nor
written, whatever the data rows and the capabilities are. -/
theorem C3_column_not_found (E : Env) (headers : Row) (data : List Row) (name : Text)
    (h : name ∉ headers) :
    extractRequestsFromExcel E (headers :: data) name = .done 0 (some .columnNotFound) none := by
  simp [extractRequestsFromExcel, scanHeaders_not_found name headers 0 h]

/-- Witness of C3: the column `url` is absent from the header `[A, http请求, B]`. -/
theorem C3_column_not_found_witness :
    "url".toList ∉ sampleHeaders ∧
    extractRequestsFromExcel sampleEnv (sampleHeaders :: sampleData) "url".toList =
      .done 0 (some .columnNotFound) none :=
  ⟨by decide, C3_column_not_found sampleEnv sampleHeaders sampleData "url".toList (by decide)⟩

/-- C4: the header scan finds an index exactly when some header cell equals the column
name (and yields -1 otherwise); the index found is the least one whose cell equals the
name, and the result of the call depends on the data rows only through their cells at
that index. -/
theorem C4_leftmost_matching_header (name : Text) (headers : Row) :
    (name ∉ headers → scanHeaders name headers 0 = -1) ∧
    (name ∈ headers → ∃ c : Nat, scanHeaders name headers 0 = (c : Int)) ∧
    ∀ c : Nat, scanHeaders name headers 0 = (c : Int) →
      headers.get? c = some name ∧ (∀ j, j < c → headers.get? j ≠ some name) ∧
      ∀ (E : Env) (data data2 : List Row),
        List.Forall₂ (fun r r2 => r.get? c = r2.get? c) data data2 →
        extractRequestsFromExcel E (headers :: data) name =
          extractRequestsFromExcel E (headers :: data2) name := by
  refine ⟨scanHeaders_not_found name headers 0, ?_, ?_⟩
  · intro h
    obtain ⟨c, hc, _⟩ := scanHeaders_found name headers 0 h
    exact ⟨c, by simpa using hc⟩
  · intro c hc
    have hmem : name ∈ headers := by
      by_contra hn
      rw [scanHeaders_not_found name headers 0 hn] at hc
      omega
    obtain ⟨c2, hc2, hget, hleast⟩ := scanHeaders_found name headers 0 hmem
    have hcc : c2 = c := by
      rw [hc2] at hc
      simp only [Nat.zero_add] at hc
      exact_mod_cast hc
    subst hcc
    refine ⟨hget, hleast, ?_⟩
    intro E data data2 hrows
    have hlen : data.length = data2.length := hrows.length_eq
    by_cases hcreate : E.createOk = true
    · rw [extract_eq_processRows E headers data name c2 hc hcreate,
        extract_eq_processRows E headers data2 name c2 hc hcreate, hlen]
      exact processRows_congr E _ c2 data data2 hrows 0 _
    · have hne : ¬ ((c2 : Int) = -1) := by omega
      simp [extractRequestsFromExcel, hc, hne, hcreate]

/-- Witness of C4: in the header `[A, http请求, B, http请求]` the name is resolved to
index 1, and two sheets that differ only outside column 1 give the same result. -/
theorem C4_leftmost_matching_header_witness :
    scanHeaders sampleColumn (sampleHeaders ++ [sampleColumn]) 0 = ((1 : Nat) : Int) ∧
    (sampleHeaders ++ [sampleColumn]).get? 1 = some sampleColumn ∧
    (∀ j, j < 1 → (sampleHeaders ++ [sampleColumn]).get? j ≠ some sampleColumn) ∧
    extractRequestsFromExcel sampleEnv
        ((sampleHeaders ++ [sampleColumn]) ::
          [["a".toList, "GET /x".toList, "b".toList, "GET /y".toList]]) sampleColumn =
      extractRequestsFromExcel sampleEnv
        ((sampleHeaders ++ [sampleColumn]) :: [["".toList, "GET /x".toList]]) sampleColumn :=
  ⟨by decide,
   ((C4_leftmost_matching_header sampleColumn (sampleHeaders ++ [sampleColumn])).2.2 1
      (by decide)).1,
   ((C4_leftmost_matching_header sampleColumn (sampleHeaders ++ [sampleColumn])).2.2 1
      (by decide)).2.1,
   ((C4_leftmost_matching_header sampleColumn (sampleHeaders ++ [sampleColumn])).2.2 1
      (by decide)).2.2 sampleEnv _ _ (List.Forall₂.cons rfl List.Forall₂.nil)⟩

/-- C5: when the column is found and every write succeeds, the bytes of the output end
with the separator block; when every data row is skipped (in particular when there is
no data row) the output is exactly one separator block and the count is 0. -/
theorem C5_output_ends_with_separator (E : Env) (headers : Row) (data : List Row)
    (name : Text) (c : Nat) (hc : scanHeaders name headers 0 = (c : Int))
    (hcreate : E.createOk = true) (hU : ∀ k, isCanonicalUUID (E.uuid k) = true)
    (hW : ∀ k, E.writeOk k = true) :
    ∃ count out, extractRequestsFromExcel E (headers :: data) name =
        .done count none (some out) ∧
      separator <:+ fileBytes out ∧
      ((∀ row ∈ data, skipped c row = true) →
        count = 0 ∧ out = [Chunk.sep] ∧ fileBytes out = separator) := by
  refine ⟨_, _, extract_success E headers data name c hc hcreate hU hW, ?_, ?_⟩
  · refine ⟨fileBytes (recordWrites E c data 0), ?_⟩
    simp [fileBytes, Chunk.bytes]
  · intro hall
    rw [recordWrites_all_skipped E c data 0 hall, filterMap_requestOf_length]
    refine ⟨?_, rfl, by simp [fileBytes, Chunk.bytes]⟩
    rw [List.countP_eq_zero]
    intro row hrow
    simp [hall row hrow]

/-- Witness of C5: a header-only sheet gives count 0 and exactly one separator block. -/
theorem C5_output_ends_with_separator_witness :
    scanHeaders sampleColumn sampleHeaders 0 = ((1 : Nat) : Int) ∧
    ∃ count out, extractRequestsFromExcel sampleEnv (sampleHeaders :: []) sampleColumn =
        .done count none (some out) ∧
      separator <:+ fileBytes out ∧
      ((∀ row ∈ ([] : List Row), skipped 1 row = true) →
        count = 0 ∧ out = [Chunk.sep] ∧ fileBytes out = separator) :=
  ⟨by decide,
   C5_output_ends_with_separator sampleEnv sampleHeaders [] sampleColumn 1 (by decide) rfl
     (fun _ => rfl) (fun _ => rfl)⟩

/-- C10: on an empty row list the call panics at `rows[0]`; on a row list with a header
neither `rows[0]` nor any `row[httpReqCol]` is out of range, whatever the lengths of the
data rows; a data row whose length is at most the target index is skipped without its
cell being read. -/
theorem C10_no_index_out_of_range (E : Env) (name : Text) :
    extractRequestsFromExcel E [] name = .panic .rowsIndex ∧
    (∀ (headers : Row) (data : List Row),
      extractRequestsFromExcel E (headers :: data) name ≠ .panic .rowsIndex ∧
      extractRequestsFromExcel E (headers :: data) name ≠ .panic .cellIndex) ∧
    ∀ (nrows c : Nat) (row : Row) (rest : List Row) (i : Nat) (st : St), row.length ≤ c →
      processRows E nrows c (row :: rest) i st = processRows E nrows c rest (i + 1) st := by
  refine ⟨rfl, ?_, ?_⟩
  · intro headers data
    have key : ∀ cause, extractRequestsFromExcel E (headers :: data) name = .panic cause →
        cause = .idSlice := by
      intro cause h
      simp only [extractRequestsFromExcel] at h
      split at h
      · simp at h
      · split at h
        · exact processRows_panic_cause E _ _ _ _ _ _ h
        · simp at h
    constructor
    · intro h; exact absurd (key _ h) (by decide)
    · intro h; exact absurd (key _ h) (by decide)
  · intro nrows c row rest i st hlen
    rw [processRows]
    simp [hlen]

/-- Witness of C10: a data row of length 1 under target index 1 is skipped. -/
theorem C10_no_index_out_of_range_witness :
    (["a".toList] : Row).length ≤ 1 ∧
    processRows sampleEnv 2 1 ([["a".toList]]) 0 ⟨0, 0, []⟩ =
      processRows sampleEnv 2 1 [] (0 + 1) ⟨0, 0, []⟩ :=
  ⟨by decide,
   (C10_no_index_out_of_range sampleEnv sampleColumn).2.2 2 1 ["a".toList] [] 0 ⟨0, 0, []⟩
     (by decide)⟩

/-- C2: when the column is found, the output file is created and the identifier source
yields canonical UUID texts, then (1) if no write fails the call returns no error, the
count of contributing rows, and an output whose writes other than separator blocks are
exactly the records of the contributing data rows in row order, with bytes
`1 <id_k> <timestamp_k> 0`, newline, trimmed cell text, newline for the k-th of them;
(2) for any writer these writes are a prefix of those records, and when write number `k`
is the first to fail the call returns a write error and the output holds exactly the
first `k` writes of the run; (3) the k-th record is the metadata line with the k-th
identifier and timestamp followed by the k-th contributing request; (4) the slice of
each identifier is in range and a record renders as stated; (5) every written body is
the cell at the target index of its row less leading and trailing white space, is not
empty, and neither begins nor ends with white space. -/
theorem C2_records_in_row_order (E : Env) (headers : Row) (data : List Row) (name : Text)
    (c : Nat) (hc : scanHeaders name headers 0 = (c : Int)) (hcreate : E.createOk = true)
    (hU : ∀ k, isCanonicalUUID (E.uuid k) = true) :
    ((∀ k, E.writeOk k = true) →
      ∃ out, extractRequestsFromExcel E (headers :: data) name =
          .done (data.filterMap (requestOf c)).length none (some out) ∧
        out.filter notSep = recordChunks E (data.filterMap (requestOf c)) 0 ∧
        fileBytes (out.filter notSep) = recordBytes E (data.filterMap (requestOf c)) 0) ∧
    (∃ count err out, extractRequestsFromExcel E (headers :: data) name =
        .done count err (some out) ∧
      out.filter notSep <+: recordChunks E (data.filterMap (requestOf c)) 0 ∧
      (err = none → out.filter notSep = recordChunks E (data.filterMap (requestOf c)) 0) ∧
      ∀ k, k ≤ (recordWrites E c data 0).length → (∀ j, j < k → E.writeOk j = true) →
        E.writeOk k = false →
        err = some .writeFailed ∧ out = (recordWrites E c data 0 ++ [Chunk.sep]).take k) ∧
    (∀ (k : Nat) (request : Text), (data.filterMap (requestOf c)).get? k = some request →
      (recordChunks E (data.filterMap (requestOf c)) 0).get? (2 * k) =
          some (Chunk.meta ((E.uuid k).take 24) (E.now k)) ∧
        (recordChunks E (data.filterMap (requestOf c)) 0).get? (2 * k + 1) =
          some (Chunk.body request)) ∧
    (∀ (k : Nat) (request : Text),
      generateRequestID (E.uuid k) = some ((E.uuid k).take 24) ∧
      fileBytes [Chunk.meta ((E.uuid k).take 24) (E.now k), Chunk.body request] =
        "1 ".toList ++ (E.uuid k).take 24 ++ " ".toList ++ formatInt (E.now k) ++
          " 0\n".toList ++ request ++ "\n".toList) ∧
    ∀ request ∈ data.filterMap (requestOf c),
      (∃ row ∈ data, ∃ cell pre post, row.get? c = some cell ∧ request = TrimSpace cell ∧
        cell = pre ++ request ++ post ∧ (∀ ch ∈ pre, isSpace ch = true) ∧
        (∀ ch ∈ post, isSpace ch = true)) ∧
      request ≠ [] ∧ (∀ ch, request.head? = some ch → isSpace ch = false) ∧
      (∀ ch, request.getLast? = some ch → isSpace ch = false) := by
  have hfilter : (recordWrites E c data 0 ++ [Chunk.sep]).filter notSep =
      recordChunks E (data.filterMap (requestOf c)) 0 := by
    rw [List.filter_append, filter_notSep_recordWrites]
    simp [notSep]
  refine ⟨?_, ?_, ?_, ?_, fun request h => mem_filterMap_requestOf c data request h⟩
  · intro hW
    refine ⟨_, extract_success E headers data name c hc hcreate hU hW, hfilter, ?_⟩
    rw [hfilter, fileBytes_recordChunks]
  · obtain ⟨count, err, k, hres, hfull⟩ := extract_general E headers data name c hc hcreate hU
    refine ⟨count, err, _, hres, ?_, ?_, ?_⟩
    · rw [← hfilter]
      exact (List.take_prefix _ _).filter _
    · intro hnone
      rw [List.take_of_length_le (hfull hnone)]
      exact hfilter
    · intro k2 hk2 hpre hf
      obtain ⟨count2, hres2⟩ :=
        extract_failure E headers data name c hc hcreate hU k2 hk2 hpre hf
      rw [hres] at hres2
      injection hres2 with _ herr hfile
      exact ⟨herr, Option.some.inj hfile⟩
  · intro k request hget
    simpa using recordChunks_get? E (data.filterMap (requestOf c)) 0 k request hget
  · intro k request
    refine ⟨(generateRequestID_canonical _ (hU k)).1, ?_⟩
    simp [fileBytes, Chunk.bytes]

/-- Witness of C2: two requests around a blank cell, with distinct identifiers and
timestamps; the records come out in row order, each with its own identifier and
timestamp and with the white space around the request removed. -/
theorem C2_records_in_row_order_witness :
    scanHeaders sampleColumn sampleHeaders 0 = ((1 : Nat) : Int) ∧
    extractRequestsFromExcel sampleTwoIds (sampleHeaders :: sampleThreeRows) sampleColumn =
      .done 2 none
        (some [Chunk.meta "123e4567-e89b-12d3-a456-".toList 1700000000000000000,
          Chunk.body "GET /x".toList, Chunk.sep,
          Chunk.meta "9f8e7d6c-5b4a-4c3d-8e2f-".toList 1700000000000000001,
          Chunk.body "POST /y".toList, Chunk.sep]) ∧
    ∃ out, extractRequestsFromExcel sampleTwoIds (sampleHeaders :: sampleThreeRows)
          sampleColumn = .done 2 none (some out) ∧
      out.filter notSep =
        [Chunk.meta "123e4567-e89b-12d3-a456-".toList 1700000000000000000,
          Chunk.body "GET /x".toList,
          Chunk.meta "9f8e7d6c-5b4a-4c3d-8e2f-".toList 1700000000000000001,
          Chunk.body "POST /y".toList] ∧
      fileBytes (out.filter notSep) =
        ("1 123e4567-e89b-12d3-a456- 1700000000000000000 0\nGET /x\n" ++
          "1 9f8e7d6c-5b4a-4c3d-8e2f- 1700000000000000001 0\nPOST /y\n").toList :=
  ⟨by decide, by decide,
   (C2_records_in_row_order sampleTwoIds sampleHeaders sampleThreeRows sampleColumn 1
      (by decide) rfl (fun k => match k with | 0 => rfl | _ + 1 => rfl)).1 (fun _ => rfl)⟩

/-- C6 as stated fails: a sheet with one data row that holds a request gives one record
and one separator block, not two. -/
theorem C6_counterexample :
    extractRequestsFromExcel sampleEnv [sampleHeaders, ["a".toList, "GET /x".toList]]
        sampleColumn =
      .done 1 none (some [Chunk.meta "123e4567-e89b-12d3-a456-".toList 1700000000000000000,
        Chunk.body "GET /x".toList, Chunk.sep]) ∧
    ¬ (∀ (E : Env) (headers : Row) (data : List Row) (name : Text) (c N : Nat)
        (out : List Chunk), scanHeaders name headers 0 = (c : Int) → E.createOk = true →
        (∀ k, isCanonicalUUID (E.uuid k) = true) → (∀ k, E.writeOk k = true) →
        extractRequestsFromExcel E (headers :: data) name = .done N none (some out) →
        0 < N → sepCount out = N + 1) := by
  refine ⟨by decide, ?_⟩
  intro h
  have := h sampleEnv sampleHeaders [["a".toList, "GET /x".toList]] sampleColumn 1 1
    [Chunk.meta "123e4567-e89b-12d3-a456-".toList 1700000000000000000,
      Chunk.body "GET /x".toList, Chunk.sep]
    (by decide) rfl (fun _ => rfl) (fun _ => rfl) (by decide) (by decide)
  revert this
  decide

/-- C6, amended: when the column is found and every write succeeds, the number of
separator blocks written is the number N of records when the last data row contributes a
record, and N + 1 otherwise (last data row skipped, or no data row). -/
theorem C6_separator_count (E : Env) (headers : Row) (data : List Row) (name : Text)
    (c : Nat) (hc : scanHeaders name headers 0 = (c : Int)) (hcreate : E.createOk = true)
    (hU : ∀ k, isCanonicalUUID (E.uuid k) = true) (hW : ∀ k, E.writeOk k = true) :
    ∃ N out, extractRequestsFromExcel E (headers :: data) name = .done N none (some out) ∧
      bodyCount out = N ∧
      sepCount out = if lastRowEmitted c data = true then N else N + 1 := by
  refine ⟨_, _, extract_success E headers data name c hc hcreate hU hW, ?_, ?_⟩
  · rw [bodyCount_append, bodyCount_recordWrites]
    simp [bodyCount]
  · have := sepCount_recordWrites E c data 0
    have happ : sepCount (recordWrites E c data 0 ++ [Chunk.sep]) =
        sepCount (recordWrites E c data 0) + 1 := by
      simp [sepCount]
    rw [happ]
    split
    · rename_i hl; simp only [hl, if_true] at this; exact this
    · rename_i hl; simp only [hl] at this; simpa using this

/-- Witness of C6: in the sample sheet the last data row is skipped, so one record
comes with two separator blocks. -/
theorem C6_separator_count_witness :
    scanHeaders sampleColumn sampleHeaders 0 = ((1 : Nat) : Int) ∧
    lastRowEmitted 1 sampleData = false ∧
    ∃ N out, extractRequestsFromExcel sampleEnv (sampleHeaders :: sampleData) sampleColumn =
        .done N none (some out) ∧
      bodyCount out = N ∧
      sepCount out = if lastRowEmitted 1 sampleData = true then N else N + 1 :=
  ⟨by decide, by decide,
   C6_separator_count sampleEnv sampleHeaders sampleData sampleColumn 1 (by decide) rfl
     (fun _ => rfl) (fun _ => rfl)⟩

/-- C7 as stated fails: when the separator after the first record cannot be written,
the metadata line and the body of one record are in the file but the count returned
is 0. -/
theorem C7_counterexample :
    extractRequestsFromExcel sampleFailEnv (sampleHeaders :: sampleTwoRequests)
        sampleColumn =
      .done 0 (some .writeFailed)
        (some [Chunk.meta "123e4567-e89b-12d3-a456-".toList 1700000000000000000,
          Chunk.body "GET /x".toList]) ∧
    ¬ (∀ (E : Env) (headers : Row) (data : List Row) (name : Text) (c count : Nat)
        (out : List Chunk), scanHeaders name headers 0 = (c : Int) → E.createOk = true →
        (∀ k, isCanonicalUUID (E.uuid k) = true) →
        extractRequestsFromExcel E (headers :: data) name =
          .done count (some .writeFailed) (some out) →
        count = bodyCount out) := by
  refine ⟨by decide, ?_⟩
  intro h
  have := h sampleFailEnv sampleHeaders sampleTwoRequests sampleColumn 1 0
    [Chunk.meta "123e4567-e89b-12d3-a456-".toList 1700000000000000000,
      Chunk.body "GET /x".toList]
    (by decide) rfl (fun _ => rfl) (by decide)
  revert this
  decide

/-- C7, amended: let the run issue, when nothing fails, the writes `W` (the writes of the
record loop followed by the final separator). When write number `k` of the run is the
first to fail, the call returns a write error, the file holds the first `k` writes of
`W`, and the count is the number of records whose metadata line and body are both in
the file, less one when the failing write is the in-loop separator that follows a
record (that record is not counted). -/
theorem C7_count_on_write_failure (E : Env) (headers : Row) (data : List Row) (name : Text)
    (c : Nat) (hc : scanHeaders name headers 0 = (c : Int)) (hcreate : E.createOk = true)
    (hU : ∀ k, isCanonicalUUID (E.uuid k) = true) (k : Nat)
    (hk : k < (recordWrites E c data 0 ++ [Chunk.sep]).length)
    (hpre : ∀ j, j < k → E.writeOk j = true) (hf : E.writeOk k = false) :
    ∃ count, extractRequestsFromExcel E (headers :: data) name =
        .done count (some .writeFailed)
          (some ((recordWrites E c data 0 ++ [Chunk.sep]).take k)) ∧
      count + (if (recordWrites E c data 0).get? k = some Chunk.sep then 1 else 0) =
        bodyCount ((recordWrites E c data 0 ++ [Chunk.sep]).take k) := by
  have hk1 : k ≤ (recordWrites E c data 0).length := by
    simp at hk; omega
  obtain ⟨count, hres, hcount⟩ := processRows_failure E (data.length + 1) c hU data 0
    ⟨0, 0, []⟩ k (by simp) hk1 (by simpa using hpre) (by simpa using hf)
  refine ⟨count, ?_, ?_⟩
  · rw [extract_eq_processRows E headers data name c hc hcreate, hres,
      List.take_append_of_le_length hk1]
    simp
  · rw [List.take_append_of_le_length hk1]
    simpa using hcount

/-- Witness of C7: two requests, the separator after the first record fails. -/
theorem C7_count_on_write_failure_witness :
    scanHeaders sampleColumn sampleHeaders 0 = ((1 : Nat) : Int) ∧
    (recordWrites sampleFailEnv 1 sampleTwoRequests 0).get? 2 = some Chunk.sep ∧
    ∃ count, extractRequestsFromExcel sampleFailEnv (sampleHeaders :: sampleTwoRequests)
          sampleColumn =
        .done count (some .writeFailed)
          (some ((recordWrites sampleFailEnv 1 sampleTwoRequests 0 ++ [Chunk.sep]).take 2)) ∧
      count + (if (recordWrites sampleFailEnv 1 sampleTwoRequests 0).get? 2 = some Chunk.sep
          then 1 else 0) =
        bodyCount ((recordWrites sampleFailEnv 1 sampleTwoRequests 0 ++ [Chunk.sep]).take 2) :=
  ⟨by decide, by decide,
   C7_count_on_write_failure sampleFailEnv sampleHeaders sampleTwoRequests sampleColumn 1
     (by decide) rfl (fun _ => rfl) 2 (by decide) (by decide) (by decide)⟩

/-- C8: on a canonical UUID text the slice `[:24]` of `generateRequestID` is in range
and yields the first 24 characters, each a hexadecimal digit or a dash; hence every
metadata line the call writes, when the identifier source yields canonical texts, is
`1 `, 24 such characters, a space, an integer in decimal, then ` 0` and a newline. -/
theorem C8_request_id_shape (u : Text) (hu : isCanonicalUUID u = true) (E : Env)
    (hU : ∀ k, isCanonicalUUID (E.uuid k) = true) (rows : List Row) (name : Text) :
    (∃ id, generateRequestID u = some id ∧ id = u.take 24 ∧ id.length = 24 ∧
      ∀ ch ∈ id, isHexOrDash ch = true) ∧
    ∀ (count : Nat) (err : Option Error) (out : List Chunk),
      extractRequestsFromExcel E rows name = .done count err (some out) →
      ∀ (id : Text) (ts : Int), Chunk.meta id ts ∈ out →
        id.length = 24 ∧ (∀ ch ∈ id, isHexOrDash ch = true) ∧
        ∃ digits, isIntegerText digits ∧
          (Chunk.meta id ts).bytes =
            "1 ".toList ++ id ++ " ".toList ++ digits ++ " 0\n".toList := by
  refine ⟨⟨u.take 24, (generateRequestID_canonical u hu).1, rfl,
    (generateRequestID_canonical u hu).2⟩, ?_⟩
  intro count err out hres id ts hmem
  have key : ∃ k, id = (E.uuid k).take 24 ∧ ts = E.now k := by
    cases rows with
    | nil => simp [extractRequestsFromExcel] at hres
    | cons headers data =>
      by_cases hname : name ∈ headers
      · obtain ⟨c, hc, _⟩ := scanHeaders_found name headers 0 hname
        simp only [Nat.zero_add] at hc
        by_cases hcreate : E.createOk = true
        · obtain ⟨count2, err2, k, hres2, _⟩ :=
            extract_general E headers data name c hc hcreate hU
          rw [hres2] at hres
          injection hres with _ _ hfile
          injection hfile with hfile
          rw [← hfile] at hmem
          have hmem2 := List.mem_of_mem_take hmem
          rcases List.mem_append.mp hmem2 with h | h
          · exact mem_recordWrites_meta E c id ts data 0 h
          · simp at h
        · have hne : ¬ ((c : Int) = -1) := by omega
          simp [extractRequestsFromExcel, hc, hne, hcreate] at hres
      · simp [extractRequestsFromExcel, scanHeaders_not_found name headers 0 hname] at hres
  obtain ⟨k, hid, _⟩ := key
  have hcanon := generateRequestID_canonical _ (hU k)
  rw [← hid] at hcanon
  exact ⟨hcanon.2.1, hcanon.2.2, formatInt ts, formatInt_isIntegerText ts, rfl⟩

/-- Witness of C8: the sample identifier text and the metadata line of the sample run. -/
theorem C8_request_id_shape_witness :
    isCanonicalUUID "123e4567-e89b-12d3-a456-426614174000".toList = true ∧
    generateRequestID "123e4567-e89b-12d3-a456-426614174000".toList =
      some "123e4567-e89b-12d3-a456-".toList ∧
    extractRequestsFromExcel sampleEnv (sampleHeaders :: sampleData) sampleColumn =
      .done 1 none (some [Chunk.meta "123e4567-e89b-12d3-a456-".toList 1700000000000000000,
        Chunk.body "GET /x".toList, Chunk.sep, Chunk.sep]) ∧
    ("123e4567-e89b-12d3-a456-".toList.length = 24 ∧
      (∀ ch ∈ "123e4567-e89b-12d3-a456-".toList, isHexOrDash ch = true) ∧
      ∃ digits, isIntegerText digits ∧
        (Chunk.meta "123e4567-e89b-12d3-a456-".toList 1700000000000000000).bytes =
          "1 ".toList ++ "123e4567-e89b-12d3-a456-".toList ++ " ".toList ++ digits ++
            " 0\n".toList) :=
  ⟨by decide, by decide, by decide,
   (C8_request_id_shape "123e4567-e89b-12d3-a456-426614174000".toList (by decide) sampleEnv
      (fun _ => rfl) (sampleHeaders :: sampleData) sampleColumn).2 1 none
      [Chunk.meta "123e4567-e89b-12d3-a456-".toList 1700000000000000000,
        Chunk.body "GET /x".toList, Chunk.sep, Chunk.sep] (by decide)
      "123e4567-e89b-12d3-a456-".toList 1700000000000000000 (by decide)⟩

/-- C9: when the column is found and every write succeeds, the record of a contributing
data row is followed inside the loop by a separator block exactly when further data rows
come after it in the sheet, whether or not they contribute; the writes of the later rows
(which never start with a separator) and the final separator follow. Hence when the
last data row contributes, the output ends with its record and one separator block, and
when the last data row is skipped after at least one record, the output ends with a body
and two separator blocks. -/
theorem C9_separator_by_row_position (E : Env) (headers : Row) (data : List Row)
    (name : Text) (c : Nat) (hc : scanHeaders name headers 0 = (c : Int))
    (hcreate : E.createOk = true) (hU : ∀ k, isCanonicalUUID (E.uuid k) = true)
    (hW : ∀ k, E.writeOk k = true) :
    ∃ N out, extractRequestsFromExcel E (headers :: data) name = .done N none (some out) ∧
      (∀ (pre : List Row) (row : Row) (post : List Row) (request : Text),
        data = pre ++ row :: post → requestOf c row = some request →
        ∃ before, bodyCount before = (pre.filterMap (requestOf c)).length ∧
          (recordWrites E c post ((pre.filterMap (requestOf c)).length + 1)).head? ≠
            some Chunk.sep ∧
          out = before ++
            [Chunk.meta ((E.uuid (pre.filterMap (requestOf c)).length).take 24)
              (E.now (pre.filterMap (requestOf c)).length), Chunk.body request] ++
            (if post = [] then [] else [Chunk.sep]) ++
            recordWrites E c post ((pre.filterMap (requestOf c)).length + 1) ++
            [Chunk.sep]) ∧
      (lastRowEmitted c data = true →
        ∃ before id ts request,
          out = before ++ [Chunk.meta id ts, Chunk.body request, Chunk.sep]) ∧
      (lastRowEmitted c data = false → 0 < N →
        ∃ before request, out = before ++ [Chunk.body request, Chunk.sep, Chunk.sep]) := by
  refine ⟨_, _, extract_success E headers data name c hc hcreate hU hW, ?_, ?_, ?_⟩
  · intro pre row post request hdata hr
    obtain ⟨before, hb, hcount⟩ := recordWrites_split E c row post request hr pre 0
    refine ⟨before, hcount, head?_recordWrites E c post _, ?_⟩
    rw [hdata, hb]
    simp
  · intro hlast
    obtain ⟨before, id, ts, request, hb⟩ := recordWrites_last_emitted E c data 0 hlast
    exact ⟨before, id, ts, request, by rw [hb]; simp⟩
  · intro hlast hN
    have hne : recordWrites E c data 0 ≠ [] := by
      intro h
      have := bodyCount_recordWrites E c data 0
      rw [h] at this
      simp [bodyCount] at this
      rw [this] at hN
      simp at hN
    obtain ⟨before, request, hb⟩ := recordWrites_last_skipped E c data 0 hlast hne
    exact ⟨before, request, by rw [hb]; simp⟩

/-- Witness of C9: in the sample sheet the first data row contributes and the last one
is skipped. -/
theorem C9_separator_by_row_position_witness :
    scanHeaders sampleColumn sampleHeaders 0 = ((1 : Nat) : Int) ∧
    lastRowEmitted 1 sampleData = false ∧
    extractRequestsFromExcel sampleEnv (sampleHeaders :: sampleData) sampleColumn =
      .done 1 none (some [Chunk.meta "123e4567-e89b-12d3-a456-".toList 1700000000000000000,
        Chunk.body "GET /x".toList, Chunk.sep, Chunk.sep]) ∧
    ∃ N out, extractRequestsFromExcel sampleEnv (sampleHeaders :: sampleData) sampleColumn =
        .done N none (some out) ∧
      (∀ (pre : List Row) (row : Row) (post : List Row) (request : Text),
        sampleData = pre ++ row :: post → requestOf 1 row = some request →
        ∃ before, bodyCount before = (pre.filterMap (requestOf 1)).length ∧
          (recordWrites sampleEnv 1 post ((pre.filterMap (requestOf 1)).length + 1)).head? ≠
            some Chunk.sep ∧
          out = before ++
            [Chunk.meta ((sampleEnv.uuid (pre.filterMap (requestOf 1)).length).take 24)
              (sampleEnv.now (pre.filterMap (requestOf 1)).length), Chunk.body request] ++
            (if post = [] then [] else [Chunk.sep]) ++
            recordWrites sampleEnv 1 post ((pre.filterMap (requestOf 1)).length + 1) ++
            [Chunk.sep]) ∧
      (lastRowEmitted 1 sampleData = true →
        ∃ before id ts request,
          out = before ++ [Chunk.meta id ts, Chunk.body request, Chunk.sep]) ∧
      (lastRowEmitted 1 sampleData = false → 0 < N →
        ∃ before request, out = before ++ [Chunk.body request, Chunk.sep, Chunk.sep]) :=
  ⟨by decide, by decide, by decide,
   C9_separator_by_row_position sampleEnv sampleHeaders sampleData sampleColumn 1 (by decide)
     rfl (fun _ => rfl) (fun _ => rfl)⟩

end ExcelToGor
